import Mathlib

/-!
Verification development for the sequence-ingestion and results pipeline of a
browser client for viral-genome classification.

The JavaScript source is embedded shallowly:

* JS strings are Lean `String`s; character-level operations (`split('\n')`,
  `trim()`, `replace(/[\s\n\r]/g,'')`, `toUpperCase()`) are modelled on
  `List Char` via `String.data`.  Whitespace is modelled as ASCII whitespace
  (`Char.isWhitespace` = space, tab, CR, LF), which covers every whitespace
  character these inputs can contain.
* JS string truthiness (`if (s)`) is "non-null and non-empty"; object
  truthiness is "non-null".
* JS numbers are modelled exactly as rationals (`ℚ`); `Number.prototype.toFixed(2)`
  is modelled as exact decimal rounding (ties away from zero for the
  non-negative values that occur here).
* `localStorage` is modelled as a key/value map `String → Option String`;
  `JSON.parse` (a host builtin that throws on malformed input) is modelled as
  a parse function returning `Option`, with `none` standing for a thrown
  `SyntaxError`; code that does not catch it is put in `Except Unit`.
-/

set_option maxRecDepth 40000

/-- One parsed FASTA record: the `{ id: '', sequence: '' }` objects built by
`parseFastaContent` in `src/utils/index.js`. -/
structure FastaRecord where
  id : String
  sequence : String
deriving DecidableEq

/-- Character-level model of the JS call `content.split('\n')`: splits the
character list at every `'\n'`, keeping empty chunks (as JS `split` does). -/
def splitNewline : List Char → List (List Char)
  | [] => [[]]
  | c :: rest =>
    if c = '\n' then [] :: splitNewline rest
    else
      match splitNewline rest with
      | [] => [[c]]
      | l :: ls => (c :: l) :: ls

/-- Model of JS `line.trim()`: drop leading and trailing whitespace. -/
def trimChars (cs : List Char) : List Char :=
  ((cs.dropWhile Char.isWhitespace).reverse.dropWhile Char.isWhitespace).reverse

/-- The loop body and final flush of `parseFastaContent`
(`src/utils/index.js` lines 24–46).  State: the lines still to process, the
current record's accumulated `id` and `sequence`, and the emitted records.
A trimmed line starting with `'>'` is a header: the current record is pushed
if both halves are non-empty (JS string truthiness) and a fresh record starts
with `id = line.substring(1)`.  A non-empty non-header trimmed line is
appended to the current sequence; blank lines are skipped.  At end of input
the current record is flushed under the same non-emptiness condition. -/
def parseLinesAux : List (List Char) → List Char → List Char → List FastaRecord → List FastaRecord
  | [], curId, curSeq, acc =>
    if curId ≠ [] ∧ curSeq ≠ [] then acc ++ [⟨curId.asString, curSeq.asString⟩] else acc
  | l :: ls, curId, curSeq, acc =>
    if (trimChars l).head? = some '>' then
      parseLinesAux ls ((trimChars l).drop 1) []
        (if curId ≠ [] ∧ curSeq ≠ [] then acc ++ [⟨curId.asString, curSeq.asString⟩] else acc)
    else if trimChars l ≠ [] then
      parseLinesAux ls curId (curSeq ++ trimChars l) acc
    else
      parseLinesAux ls curId curSeq acc

/-- The body of `parseFastaContent` on an already-split list of lines. -/
def parseLines (lines : List (List Char)) : List FastaRecord :=
  parseLinesAux lines [] [] []

/-- Model of `parseFastaContent(content)` from `src/utils/index.js`: split on `'\n'`
and run the accumulator loop starting from the empty record. -/
def parseFastaContent (content : String) : List FastaRecord :=
  parseLines (splitNewline content.data)

/-- Model of `cleanDNASequence(sequence)` from `src/utils/index.js`:
`sequence.replace(/[\s\n\r]/g, '').toUpperCase()` — remove every whitespace
character, then uppercase. -/
def cleanDNASequence (s : String) : String :=
  List.asString ((s.data.filter (fun c => !c.isWhitespace)).map Char.toUpper)

/-- Model of `createFastaFromSequence(sequence, id = 'User_Sequence')` from
`src/utils/index.js`: the template literal `` `>${id}\n${cleanSeq}` `` where
`cleanSeq = cleanDNASequence(sequence)`. -/
def createFastaFromSequence (sequence : String) (i : String := "User_Sequence") : String :=
  ">" ++ i ++ "\n" ++ cleanDNASequence sequence

/-- Membership in the regex character class `[ATGCN]` with the `i` flag:
exactly the ten ASCII letters below. -/
def isDNAChar (c : Char) : Bool :=
  c == 'A' || c == 'T' || c == 'G' || c == 'C' || c == 'N' ||
  c == 'a' || c == 't' || c == 'g' || c == 'c' || c == 'n'

/-- Model of `validateDNASequence(sequence)` from `src/utils/index.js`:
`/^[ATGCN\s\n\r]+$/i.test(sequence)`.  The anchored `+` repetition over the
character class holds iff the string is non-empty and every character is a
DNA letter or whitespace. -/
def validateDNASequence (s : String) : Bool :=
  !s.data.isEmpty && s.data.all (fun c => isDNAChar c || c.isWhitespace)

/-! ### Helper lemmas -/

theorem asString_ne_empty {l : List Char} (h : l ≠ []) : l.asString ≠ "" := by
  intro he
  apply h
  have hd : (List.asString l).data = String.data "" := congrArg String.data he
  simpa [List.asString] using hd

theorem dropWhile_id_of_not {α : Type} {p : α → Bool} {l : List α}
    (h : ∀ c ∈ l, p c = false) : l.dropWhile p = l := by
  cases l with
  | nil => rfl
  | cons c t => simp [List.dropWhile_cons, h c (by simp)]

theorem trimChars_of_no_ws {cs : List Char} (h : ∀ c ∈ cs, c.isWhitespace = false) :
    trimChars cs = cs := by
  have h1 : cs.dropWhile Char.isWhitespace = cs := dropWhile_id_of_not h
  have h2 : cs.reverse.dropWhile Char.isWhitespace = cs.reverse :=
    dropWhile_id_of_not (fun c hc => h c (List.mem_reverse.mp hc))
  simp [trimChars, h1, h2]

theorem splitNewline_of_no_newline {cs : List Char} (h : ∀ c ∈ cs, c ≠ '\n') :
    splitNewline cs = [cs] := by
  induction cs with
  | nil => rfl
  | cons c rest ih =>
    have hc : ¬ c = '\n' := h c (by simp)
    have hr := ih (fun x hx => h x (by simp [hx]))
    simp [splitNewline, hc, hr]

theorem splitNewline_append {a : List Char} (b : List Char) (h : ∀ c ∈ a, c ≠ '\n') :
    splitNewline (a ++ '\n' :: b) = a :: splitNewline b := by
  induction a with
  | nil => simp [splitNewline]
  | cons c a' ih =>
    have hc : ¬ c = '\n' := h c (by simp)
    have ih' := ih (fun x hx => h x (by simp [hx]))
    simp [splitNewline, hc, ih']

/-! ### Results export (`exportCSV` in `src/pages/Results.js`, lines 43–56) -/

/-- One entry of `results.detailed_results` as consumed by `exportCSV`.
`raw_probabilities` and each of its two fields are optional in the payload;
`raw_viral`/`raw_non_viral` are `none` when `raw_probabilities` itself or the
corresponding field is absent. -/
structure DetailedResult where
  sequence_id : String
  prediction : String
  probability : ℚ
  sequence_length : ℕ
  raw_viral : Option ℚ
  raw_non_viral : Option ℚ
deriving DecidableEq

/-- Model of JS `x.toFixed(2)` for the non-negative numbers occurring here:
round `x·100` to the nearest integer (ties up) and print with exactly two
digits after the decimal point. -/
def toFixed2 (q : ℚ) : String :=
  let n : ℤ := ⌊q * 100 + 1 / 2⌋
  toString (n / 100) ++ "." ++ (if n % 100 < 10 then "0" else "") ++ toString (n % 100)

/-- The `csvHeaders` array of `exportCSV`. -/
def csvHeaders : List String :=
  ["Sequence_ID", "Prediction", "Confidence", "Length", "Viral_Probability", "NonViral_Probability"]

/-- The ternary `result.raw_probabilities?.viral ? (…*100).toFixed(2) : 'N/A'`:
JS number truthiness makes the condition false both when the field is absent
and when it equals `0`. -/
def probCell (p : Option ℚ) : String :=
  match p with
  | some q => if q ≠ 0 then toFixed2 (q * 100) else "N/A"
  | none => "N/A"

/-- One element of the `csvRows` array of `exportCSV` (numbers are converted
to strings by `Array.prototype.join`). -/
def csvRow (r : DetailedResult) : List String :=
  [r.sequence_id, r.prediction, toFixed2 (r.probability * 100),
   toString r.sequence_length, probCell r.raw_viral, probCell r.raw_non_viral]

/-- The `csvContent` string of `exportCSV`:
`[csvHeaders, ...csvRows].map(row => row.join(',')).join('\n')`. -/
def csvContent (rs : List DetailedResult) : String :=
  String.intercalate "\n" ((csvHeaders :: rs.map csvRow).map (String.intercalate ","))

/-! ### Browser-local key/value store (`localStorage`) -/

/-- The browser-local key/value store. -/
abbrev LocalStorage := String → Option String

/-- Model of `localStorage.setItem(k, v)`. -/
def setItem (st : LocalStorage) (k v : String) : LocalStorage :=
  fun q => if q = k then some v else st q

/-- Model of `localStorage.getItem(k)` (`null` becomes `none`). -/
def getItem (st : LocalStorage) (k : String) : Option String := st k

/-- Store writes of the `proceedToModels` success path (`reader.onload` in
the upload page): `setItem('uploadedFile', metaJson)` then
`setItem('fileContent', content)`. -/
def proceedToModelsSave (st : LocalStorage) (metaJson content : String) : LocalStorage :=
  setItem (setItem st "uploadedFile" metaJson) "fileContent" content

/-- Store write of the `runPrediction` success path (models page):
`setItem('predictionResults', resultsJson)`. -/
def savePredictionResults (st : LocalStorage) (resultsJson : String) : LocalStorage :=
  setItem st "predictionResults" resultsJson

/-- The object stored under `'uploadedFile'` by `proceedToModels`:
`{ name, size, type }`. -/
structure UploadedFileMeta where
  name : String
  size : ℕ
  type : String
deriving DecidableEq

/-- What `loadUploadedFile` leaves behind: either both state setters were
called with the parsed metadata and the raw content, or the "No file found"
warning was shown and nothing was set. -/
inductive LoadOutcome
  | loaded (meta : UploadedFileMeta) (content : String)
  | absent
deriving DecidableEq

/-- JS truthiness of a nullable string. -/
def strTruthy (o : Option String) : Bool :=
  match o with
  | some s => s != ""
  | none => false

/-- Model of `loadUploadedFile` from the models page (`src/utils/index.js` context,
lines 294–304): read both keys, and only when both are truthy call
`JSON.parse(fileInfo)` — with no surrounding try/catch, so a parse failure
(modelled by `jsonParseMeta _ = none`) escapes as `Except.error`. -/
def loadUploadedFile (st : LocalStorage)
    (jsonParseMeta : String → Option UploadedFileMeta) : Except Unit LoadOutcome :=
  let fileInfo := getItem st "uploadedFile"
  let content := getItem st "fileContent"
  if strTruthy fileInfo && strTruthy content then
    match jsonParseMeta (fileInfo.getD "") with
    | some m => .ok (.loaded m (content.getD ""))
    | none => .error ()
  else
    .ok .absent

/-! ### Prediction controller (`runPrediction` in the models page) -/

/-- The component state read by `runPrediction`. -/
structure ModelsState where
  uploadedFile : Option UploadedFileMeta
  fileContent : Option String
  selectedModels : Finset String
  backendStatus : String
  isProcessing : Bool

/-- The observable outcome of one `runPrediction` call: which early-return
error notification fired, or that the `POST /predict` request was issued. -/
inductive RunOutcome
  | noFileError
  | noModelsError
  | backendNotConnectedError
  | predictRequestIssued
deriving DecidableEq

/-- The guard chain of `runPrediction` (models page, lines 339–368): the three
early returns leave the state untouched and issue no network request; only
after all guards pass does the fetch happen (and `isProcessing` is set). -/
def runPredictionStep (st : ModelsState) : RunOutcome × ModelsState :=
  if st.uploadedFile.isSome = false || strTruthy st.fileContent = false then
    (.noFileError, st)
  else if st.selectedModels.card = 0 then
    (.noModelsError, st)
  else if st.backendStatus ≠ "connected" then
    (.backendNotConnectedError, st)
  else
    (.predictRequestIssued, { st with isProcessing := true })

/-- Model of `checkBackendStatus` (models page): `backendStatus` becomes `'connected'`
exactly when the health check responded with `status === 'healthy'`; a
network failure sets `'disconnected'`; any other response leaves the previous
value.  So a reachable/healthy report is the only way to reach
`'connected'`. -/
def checkBackendStatusUpdate (previous : String) (healthStatus : Option String) : String :=
  match healthStatus with
  | some s => if s = "healthy" then "connected" else previous
  | none => "disconnected"

/-! ### Parser lemmas -/

theorem parseLinesAux_skip_blanks {blanks : List (List Char)}
    (hb : ∀ b ∈ blanks, trimChars b = []) (ls : List (List Char))
    (curId curSeq : List Char) (acc : List FastaRecord) :
    parseLinesAux (blanks ++ ls) curId curSeq acc = parseLinesAux ls curId curSeq acc := by
  induction blanks with
  | nil => rfl
  | cons b bs ih =>
    have h1 : trimChars b = [] := hb b (by simp)
    have h2 : ∀ x ∈ bs, trimChars x = [] := fun x hx => hb x (by simp [hx])
    simp only [List.cons_append, parseLinesAux, h1]
    simp only [List.head?_nil, reduceCtorEq, if_false, ne_eq, not_true_eq_false, if_neg,
      not_false_eq_true]
    exact ih h2

theorem parseLinesAux_seq_irrelevant (ls : List (List Char)) :
    ∀ s₁ s₂ : List Char, ∀ acc : List FastaRecord,
      parseLinesAux ls [] s₁ acc = parseLinesAux ls [] s₂ acc := by
  induction ls with
  | nil =>
    intro s₁ s₂ acc
    simp [parseLinesAux]
  | cons l ls ih =>
    intro s₁ s₂ acc
    by_cases hp : (trimChars l).head? = some '>'
    · simp only [parseLinesAux, if_pos hp]
      simp
    · by_cases hpe : trimChars l = []
      · simp only [parseLinesAux, if_neg hp, hpe, ne_eq, not_true_eq_false, if_false,
          not_false_eq_true]
        exact ih s₁ s₂ acc
      · simp only [parseLinesAux, if_neg hp, if_pos hpe, ne_eq]
        exact ih (s₁ ++ trimChars l) (s₂ ++ trimChars l) acc

theorem parseLinesAux_drop_empty_header {h : List Char} {blanks suffix : List (List Char)}
    (hh : (trimChars h).head? = some '>')
    (hb : ∀ b ∈ blanks, trimChars b = [])
    (hs : suffix = [] ∨ ∃ h2 rest, suffix = h2 :: rest ∧ (trimChars h2).head? = some '>') :
    ∀ pre : List (List Char), ∀ curId curSeq : List Char, ∀ acc : List FastaRecord,
      parseLinesAux (pre ++ h :: (blanks ++ suffix)) curId curSeq acc
        = parseLinesAux (pre ++ suffix) curId curSeq acc := by
  intro pre
  induction pre with
  | nil =>
    intro curId curSeq acc
    simp only [List.nil_append, parseLinesAux, if_pos hh]
    rw [parseLinesAux_skip_blanks hb]
    rcases hs with rfl | ⟨h2, rest, rfl, hh2⟩
    · simp [parseLinesAux]
    · simp only [parseLinesAux, if_pos hh2]
      simp
  | cons p pre' ih =>
    intro curId curSeq acc
    by_cases hp : (trimChars p).head? = some '>'
    · simp only [List.cons_append, parseLinesAux, if_pos hp]
      exact ih _ _ _
    · by_cases hpe : trimChars p = []
      · simp only [List.cons_append, parseLinesAux, if_neg hp, hpe, ne_eq, not_true_eq_false,
          if_false, not_false_eq_true]
        exact ih _ _ _
      · simp only [List.cons_append, parseLinesAux, if_neg hp, if_pos hpe, ne_eq]
        exact ih _ _ _

theorem parseLinesAux_mem (ls : List (List Char)) :
    ∀ curId curSeq : List Char, ∀ acc : List FastaRecord, ∀ r : FastaRecord,
      r ∈ parseLinesAux ls curId curSeq acc →
        r ∈ acc ∨ (r.id ≠ "" ∧ r.sequence ≠ "") := by
  induction ls with
  | nil =>
    intro curId curSeq acc r hr
    simp only [parseLinesAux] at hr
    by_cases hc : curId ≠ [] ∧ curSeq ≠ []
    · rw [if_pos hc] at hr
      rcases List.mem_append.mp hr with hmem | hmem
      · exact Or.inl hmem
      · right
        have : r = ⟨curId.asString, curSeq.asString⟩ := by simpa using hmem
        subst this
        exact ⟨asString_ne_empty hc.1, asString_ne_empty hc.2⟩
    · rw [if_neg hc] at hr
      exact Or.inl hr
  | cons l ls ih =>
    intro curId curSeq acc r hr
    by_cases hp : (trimChars l).head? = some '>'
    · simp only [parseLinesAux, if_pos hp] at hr
      by_cases hc : curId ≠ [] ∧ curSeq ≠ []
      · rw [if_pos hc] at hr
        rcases ih _ _ _ _ hr with hmem | hgood
        · rcases List.mem_append.mp hmem with hmem' | hmem'
          · exact Or.inl hmem'
          · right
            have : r = ⟨curId.asString, curSeq.asString⟩ := by simpa using hmem'
            subst this
            exact ⟨asString_ne_empty hc.1, asString_ne_empty hc.2⟩
        · exact Or.inr hgood
      · rw [if_neg hc] at hr
        exact ih _ _ _ _ hr
    · by_cases hpe : trimChars l = []
      · simp only [parseLinesAux, if_neg hp, hpe, ne_eq, not_true_eq_false, if_false,
          not_false_eq_true] at hr
        exact ih _ _ _ _ hr
      · simp only [parseLinesAux, if_neg hp, if_pos hpe, ne_eq] at hr
        exact ih _ _ _ _ hr

theorem parseLinesAux_preamble {pre : List (List Char)}
    (hpre : ∀ l ∈ pre, (trimChars l).head? ≠ some '>') (rest : List (List Char)) :
    ∀ curSeq : List Char, ∀ acc : List FastaRecord,
      parseLinesAux (pre ++ rest) [] curSeq acc = parseLinesAux rest [] [] acc := by
  induction pre with
  | nil =>
    intro curSeq acc
    exact parseLinesAux_seq_irrelevant rest curSeq [] acc
  | cons p pre' ih =>
    intro curSeq acc
    have hp : ¬ (trimChars p).head? = some '>' := hpre p (by simp)
    have hpre' : ∀ l ∈ pre', (trimChars l).head? ≠ some '>' := fun l hl => hpre l (by simp [hl])
    by_cases hpe : trimChars p = []
    · simp only [List.cons_append, parseLinesAux, if_neg hp, hpe, ne_eq, not_true_eq_false,
        if_false, not_false_eq_true]
      exact ih hpre' _ _
    · simp only [List.cons_append, parseLinesAux, if_neg hp, if_pos hpe, ne_eq]
      exact ih hpre' _ _

/-! ### Character-class lemmas -/

theorem toUpper_mem_of_isDNAChar {c : Char} (h : isDNAChar c = true) :
    Char.toUpper c = 'A' ∨ Char.toUpper c = 'T' ∨ Char.toUpper c = 'G' ∨
      Char.toUpper c = 'C' ∨ Char.toUpper c = 'N' := by
  simp only [isDNAChar, Bool.or_eq_true, beq_iff_eq] at h
  rcases h with ((((((((h | h) | h) | h) | h) | h) | h) | h) | h) | h <;> subst h <;> decide

theorem upperDNA_props {c : Char}
    (h : c = 'A' ∨ c = 'T' ∨ c = 'G' ∨ c = 'C' ∨ c = 'N') :
    c.isWhitespace = false ∧ c ≠ '\n' ∧ c ≠ '>' ∧ Char.toUpper c = c ∧ isDNAChar c = true := by
  rcases h with rfl | rfl | rfl | rfl | rfl <;> decide

theorem map_id_of_mem {α : Type} {l : List α} {f : α → α} (h : ∀ a ∈ l, f a = a) :
    l.map f = l := by
  induction l with
  | nil => rfl
  | cons a t ih => simp [h a (by simp), ih (fun x hx => h x (by simp [hx]))]

/-- Characters of `cleanDNASequence s` when every character of `s` is a DNA
letter or whitespace: each is one of the five uppercase DNA letters. -/
theorem cleanDNASequence_chars {s : String}
    (hall : ∀ c ∈ s.data, isDNAChar c = true ∨ c.isWhitespace = true) :
    ∀ c ∈ (cleanDNASequence s).data,
      c = 'A' ∨ c = 'T' ∨ c = 'G' ∨ c = 'C' ∨ c = 'N' := by
  intro c hc
  have hc' : c ∈ (s.data.filter (fun c => !c.isWhitespace)).map Char.toUpper := hc
  rcases List.mem_map.mp hc' with ⟨c₀, hc₀, rfl⟩
  have hfc := List.mem_filter.mp hc₀
  have hdna : isDNAChar c₀ = true := by
    rcases hall c₀ hfc.1 with hg | hw
    · exact hg
    · exfalso
      have hb := hfc.2
      rw [hw] at hb
      simp at hb
  exact toUpper_mem_of_isDNAChar hdna

/-- The function `cleanDNASequence` is a fixed point on its own output when the input is a
DNA-letters-and-whitespace string. -/
theorem cleanDNASequence_idem {s : String}
    (hall : ∀ c ∈ s.data, isDNAChar c = true ∨ c.isWhitespace = true) :
    cleanDNASequence (cleanDNASequence s) = cleanDNASequence s := by
  have hchars := cleanDNASequence_chars hall
  have hfilter : (cleanDNASequence s).data.filter (fun c => !c.isWhitespace)
      = (cleanDNASequence s).data := by
    apply List.filter_eq_self.mpr
    intro c hc
    have := (upperDNA_props (hchars c hc)).1
    simp [this]
  have hmap : ((cleanDNASequence s).data).map Char.toUpper = (cleanDNASequence s).data :=
    map_id_of_mem (fun c hc => (upperDNA_props (hchars c hc)).2.2.2.1)
  show List.asString (((cleanDNASequence s).data.filter (fun c => !c.isWhitespace)).map
    Char.toUpper) = cleanDNASequence s
  rw [hfilter, hmap]
  rfl

/-- C2 (amended): for a string of DNA letters (any case) and whitespace that
contains at least one non-whitespace character,
`parseFastaContent(createFastaFromSequence(cleanDNASequence(s), "X"))` yields
exactly one record with id `"X"` and sequence `cleanDNASequence(s)`. -/
theorem parseFasta_roundTrip (s : String)
    (hall : ∀ c ∈ s.data, isDNAChar c = true ∨ c.isWhitespace = true)
    (hnz : ∃ c ∈ s.data, c.isWhitespace = false) :
    parseFastaContent (createFastaFromSequence (cleanDNASequence s) "X")
      = [⟨"X", cleanDNASequence s⟩] := by
  have hchars := cleanDNASequence_chars hall
  have hnonl : ∀ c ∈ (cleanDNASequence s).data, c ≠ '\n' :=
    fun c hc => (upperDNA_props (hchars c hc)).2.1
  have hnws : ∀ c ∈ (cleanDNASequence s).data, c.isWhitespace = false :=
    fun c hc => (upperDNA_props (hchars c hc)).1
  have hne : (cleanDNASequence s).data ≠ [] := by
    rcases hnz with ⟨c, hc, hcw⟩
    intro hnil
    have hcf : c ∈ s.data.filter (fun c => !c.isWhitespace) :=
      List.mem_filter.mpr ⟨hc, by simp [hcw]⟩
    have hmn : (s.data.filter (fun c => !c.isWhitespace)).map Char.toUpper = [] := hnil
    rw [List.map_eq_nil_iff] at hmn
    rw [hmn] at hcf
    exact absurd hcf (List.not_mem_nil c)
  have hcontent : (createFastaFromSequence (cleanDNASequence s) "X").data
      = ['>', 'X'] ++ '\n' :: (cleanDNASequence s).data := by
    show (">" ++ "X" ++ "\n" ++ cleanDNASequence (cleanDNASequence s)).data = _
    rw [cleanDNASequence_idem hall]
    simp
  unfold parseFastaContent
  rw [hcontent, splitNewline_append _ (by decide), splitNewline_of_no_newline hnonl]
  obtain ⟨c, t, hq⟩ : ∃ c t, (cleanDNASequence s).data = c :: t := by
    cases hx : (cleanDNASequence s).data with
    | nil => exact absurd hx hne
    | cons c t => exact ⟨c, t, rfl⟩
  have hcgt : c ≠ '>' := by
    have hcmem : c ∈ (cleanDNASequence s).data := by rw [hq]; simp
    exact (upperDNA_props (hchars c hcmem)).2.2.1
  have ht1 : trimChars ['>', 'X'] = ['>', 'X'] := by decide
  have ht2 : trimChars (cleanDNASequence s).data = (cleanDNASequence s).data :=
    trimChars_of_no_ws hnws
  have hcond2 : ¬ (trimChars (cleanDNASequence s).data).head? = some '>' := by
    rw [ht2, hq]
    simp [hcgt]
  have hcond3 : trimChars (cleanDNASequence s).data ≠ [] := by
    rw [ht2]
    exact hne
  have hax : List.asString ['X'] = "X" := rfl
  have hasq : List.asString (cleanDNASequence s).data = cleanDNASequence s := rfl
  have hcond2d : ¬ (cleanDNASequence s).data.head? = some '>' := by
    rw [hq]
    simp [hcgt]
  simp [parseLines, parseLinesAux, ht1, ht2, hcond2, hcond2d, hcond3, hne, hax, hasq]

/-! ### Claim theorems -/

/-- C1 counterexample: the whitespace-only string `" "` trims to empty, yet
`validateDNASequence` accepts it — the regex character class contains `\s`,
so any non-empty all-whitespace string matches `/^[ATGCN\s\n\r]+$/i`. -/
theorem validateDNASequence_claim_cex :
    validateDNASequence " " = true ∧ trimChars (String.data " ") = [] ∧ (" " : String) ≠ "" := by
  decide

/-- C1 (amended): `validateDNASequence(text)` returns true iff `text` is
non-empty and every character is in `[ATGCNatgcn]` or whitespace; hence the
empty string and any string containing a character outside
{A,T,G,C,N,whitespace} are rejected — but a non-empty whitespace-only string
(empty after trimming) is accepted, not rejected. -/
theorem validateDNASequence_spec (s : String) :
    (validateDNASequence s = true ↔
      s.data ≠ [] ∧ ∀ c ∈ s.data, (isDNAChar c || c.isWhitespace) = true)
    ∧ validateDNASequence "" = false
    ∧ (∀ c ∈ s.data, isDNAChar c = false → c.isWhitespace = false →
        validateDNASequence s = false) := by
  have hiff : validateDNASequence s = true ↔
      s.data ≠ [] ∧ ∀ c ∈ s.data, (isDNAChar c || c.isWhitespace) = true := by
    simp only [validateDNASequence, Bool.and_eq_true, Bool.not_eq_true', List.all_eq_true]
    constructor
    · rintro ⟨h1, h2⟩
      refine ⟨fun hnil => by rw [hnil] at h1; simp at h1, h2⟩
    · rintro ⟨h1, h2⟩
      refine ⟨?_, h2⟩
      cases hx : s.data with
      | nil => exact absurd hx h1
      | cons a l => rfl
  refine ⟨hiff, by decide, ?_⟩
  intro c hc h1 h2
  cases hv : validateDNASequence s with
  | false => rfl
  | true =>
    have hgot := (hiff.mp hv).2 c hc
    rw [h1, h2] at hgot
    simp at hgot

/-- C1 witness: the amended characterization applied at concrete inputs. -/
theorem validateDNASequence_spec_witness :
    validateDNASequence "AC GT" = true ∧ validateDNASequence "AC%GT" = false :=
  ⟨(validateDNASequence_spec "AC GT").1.mpr (by decide),
   (validateDNASequence_spec "AC%GT").2.2 '%' (by decide) (by decide) (by decide)⟩

/-- C2 counterexample: `" "` is a non-empty string whose characters are all
in {A,T,G,C,N,whitespace}, yet the round trip yields no record at all — the
normalized sequence is empty, so the flush condition drops the record. -/
theorem parseFasta_roundTrip_cex :
    (" " : String) ≠ ""
    ∧ parseFastaContent (createFastaFromSequence (cleanDNASequence " ") "X") = [] := by
  constructor
  · decide
  · rfl

/-- C2 witness: the round trip at a concrete mixed-case input. -/
theorem parseFasta_roundTrip_witness :
    parseFastaContent (createFastaFromSequence (cleanDNASequence "ac gT") "X")
      = [⟨"X", cleanDNASequence "ac gT"⟩] :=
  parseFasta_roundTrip "ac gT" (by decide) (by decide)

/-- C3 counterexample record: the raw viral probability is present but 0. -/
def zeroRawDetailed : DetailedResult :=
  ⟨"seq1", "NonViral", 1 / 10, 12, some 0, some 1⟩

/-- C3 counterexample: an entry whose raw viral probability is present (it is
`0`), yet the `Viral_Probability` cell is the literal `N/A` — JS number `0`
is falsy, so the ternary takes the `N/A` branch — instead of
`(0 * 100).toFixed(2) = "0.00"` as the claim requires for present values. -/
theorem csv_rawProbability_claim_cex :
    zeroRawDetailed.raw_viral = some 0
    ∧ (csvRow zeroRawDetailed).get? 4 = some "N/A"
    ∧ toFixed2 ((0 : ℚ) * 100) = "0.00" := by
  have hx : (0 : ℚ) * 100 * 100 + 1 / 2 = 1 / 2 := by norm_num
  have hf : ⌊(1 : ℚ) / 2⌋ = 0 := by
    rw [Int.floor_eq_zero_iff]
    constructor <;> norm_num
  have htf : toFixed2 ((0 : ℚ) * 100) = "0.00" := by
    unfold toFixed2
    rw [hx, hf]
    rfl
  refine ⟨rfl, ?_, htf⟩
  have h4 : (csvRow zeroRawDetailed).get? 4 = some (probCell zeroRawDetailed.raw_viral) := rfl
  rw [h4]
  simp [probCell, zeroRawDetailed]

/-- C3 (amended): the `Viral_Probability`/`NonViral_Probability` cells show
the raw probability times 100 to two decimals when that probability is
present and non-zero, and the literal `N/A` when it is absent or zero. -/
theorem csv_rawProbability_cells (r : DetailedResult) :
    (r.raw_viral = none → (csvRow r).get? 4 = some "N/A")
    ∧ (∀ p : ℚ, r.raw_viral = some p → p ≠ 0 →
        (csvRow r).get? 4 = some (toFixed2 (p * 100)))
    ∧ (r.raw_viral = some 0 → (csvRow r).get? 4 = some "N/A")
    ∧ (r.raw_non_viral = none → (csvRow r).get? 5 = some "N/A")
    ∧ (∀ p : ℚ, r.raw_non_viral = some p → p ≠ 0 →
        (csvRow r).get? 5 = some (toFixed2 (p * 100)))
    ∧ (r.raw_non_viral = some 0 → (csvRow r).get? 5 = some "N/A") := by
  have h4 : (csvRow r).get? 4 = some (probCell r.raw_viral) := rfl
  have h5 : (csvRow r).get? 5 = some (probCell r.raw_non_viral) := rfl
  refine ⟨?_, ?_, ?_, ?_, ?_, ?_⟩
  · intro h
    rw [h4, h]
    rfl
  · intro p hp hpz
    rw [h4, hp]
    simp [probCell, hpz]
  · intro h
    rw [h4, h]
    simp [probCell]
  · intro h
    rw [h5, h]
    rfl
  · intro p hp hpz
    rw [h5, hp]
    simp [probCell, hpz]
  · intro h
    rw [h5, h]
    simp [probCell]

/-- C3 witness: the amended cell rules at a concrete entry. -/
theorem csv_rawProbability_cells_witness :
    (csvRow ⟨"a", "Viral", 1 / 2, 5, some (3 / 4), none⟩).get? 4
      = some (toFixed2 ((3 / 4 : ℚ) * 100))
    ∧ (csvRow ⟨"a", "Viral", 1 / 2, 5, some (3 / 4), none⟩).get? 5 = some "N/A" :=
  ⟨(csv_rawProbability_cells ⟨"a", "Viral", 1 / 2, 5, some (3 / 4), none⟩).2.1
      (3 / 4) rfl (by norm_num),
   (csv_rawProbability_cells ⟨"a", "Viral", 1 / 2, 5, some (3 / 4), none⟩).2.2.2.1 rfl⟩

/-- C6: the CSV export is the fixed header row followed by exactly one row
per `detailed_results` entry, in the same order (no re-sort), with the
`Confidence` column equal to `probability * 100` fixed to two decimals. -/
theorem csvContent_structure (rs : List DetailedResult) :
    csvContent rs
      = String.intercalate "\n" ((csvHeaders :: rs.map csvRow).map (String.intercalate ","))
    ∧ String.intercalate "," csvHeaders
      = "Sequence_ID,Prediction,Confidence,Length,Viral_Probability,NonViral_Probability"
    ∧ (csvHeaders :: rs.map csvRow).length = rs.length + 1
    ∧ (∀ i : ℕ, (rs.map csvRow).get? i = (rs.get? i).map csvRow)
    ∧ (∀ r : DetailedResult, (csvRow r).get? 2 = some (toFixed2 (r.probability * 100))) := by
  refine ⟨rfl, by decide, by simp, ?_, fun r => rfl⟩
  intro i
  simp [List.get?_eq_getElem?, List.getElem?_map]

/-- C5: a header line with no non-empty sequence lines before the next
header or end of input yields no record: parsing the text is the same as
parsing it with that header line and the intervening blank lines removed. -/
theorem parseFasta_emptyHeader_dropped (content : String)
    (pre blanks suffix : List (List Char)) (h : List Char)
    (hsplit : splitNewline content.data = pre ++ h :: (blanks ++ suffix))
    (hh : (trimChars h).head? = some '>')
    (hb : ∀ b ∈ blanks, trimChars b = [])
    (hs : suffix = [] ∨ ∃ h2 rest, suffix = h2 :: rest ∧ (trimChars h2).head? = some '>') :
    parseFastaContent content = parseLines (pre ++ suffix) := by
  unfold parseFastaContent parseLines
  rw [hsplit]
  exact parseLinesAux_drop_empty_header hh hb hs pre [] [] []

/-- C5 witness: `">A"` followed by a blank line and then `">B"` produces no
record for `"A"`. -/
theorem parseFasta_emptyHeader_dropped_witness :
    parseFastaContent ">A\n\n>B\nCG" = parseLines [['>', 'B'], ['C', 'G']] :=
  parseFasta_emptyHeader_dropped ">A\n\n>B\nCG" [] [[]] [['>', 'B'], ['C', 'G']] ['>', 'A']
    (by decide) (by decide) (by decide)
    (Or.inr ⟨['>', 'B'], [['C', 'G']], rfl, by decide⟩)

/-- C10: every record emitted by `parseFastaContent` has a non-empty id and a
non-empty sequence; and non-header lines before the first header are
discarded — parsing a text whose line split is a header-free prefix followed
by the rest equals parsing the rest alone, so no prefix line reaches any
record. -/
theorem parseFasta_wellFormed :
    (∀ content : String, ∀ r ∈ parseFastaContent content, r.id ≠ "" ∧ r.sequence ≠ "")
    ∧ (∀ content : String, ∀ pre rest : List (List Char),
        splitNewline content.data = pre ++ rest →
        (∀ l ∈ pre, (trimChars l).head? ≠ some '>') →
        parseFastaContent content = parseLines rest) := by
  constructor
  · intro content r hr
    have hr' : r ∈ parseLinesAux (splitNewline content.data) [] [] [] := hr
    rcases parseLinesAux_mem _ _ _ _ _ hr' with hmem | hgood
    · exact absurd hmem (List.not_mem_nil r)
    · exact hgood
  · intro content pre rest hsplit hpre
    unfold parseFastaContent parseLines
    rw [hsplit]
    exact parseLinesAux_preamble hpre rest [] []

/-- C10 witness: a parsed record has non-empty halves, and a leading
non-header line is discarded. -/
theorem parseFasta_wellFormed_witness :
    ((⟨"A", "CG"⟩ : FastaRecord).id ≠ "" ∧ (⟨"A", "CG"⟩ : FastaRecord).sequence ≠ "")
    ∧ parseFastaContent "xx\n>A\nCG" = parseLines [['>', 'A'], ['C', 'G']] :=
  ⟨parseFasta_wellFormed.1 ">A\nCG" ⟨"A", "CG"⟩ (by decide),
   parseFasta_wellFormed.2 "xx\n>A\nCG" [['x', 'x']] [['>', 'A'], ['C', 'G']]
     (by decide) (by decide)⟩

/-- The store refuting C4: the metadata slot holds the malformed JSON text
`"{"` and the content slot is populated. -/
def malformedMetaStore : LocalStorage :=
  setItem (setItem (fun _ => none) "uploadedFile" "\x7b") "fileContent" "ACGT"

/-- A deserializer on which every input fails, standing for `JSON.parse`
throwing a `SyntaxError` (as it does on the stored text `"{"`). -/
def throwingParseMeta : String → Option UploadedFileMeta := fun _ => none

/-- C4 counterexample: both halves of the upload slot are present but the
metadata is malformed; `loadUploadedFile` calls `JSON.parse(fileInfo)` with
no surrounding try/catch, so the deserialization failure escapes to the
caller as an exception instead of being treated as slot-absent. -/
theorem loadUploadedFile_claim_cex :
    loadUploadedFile malformedMetaStore throwingParseMeta = Except.error () := rfl

/-- C4 (amended): `loadUploadedFile` returns absent — raising nothing — when
either half is missing or empty, and returns the pair when both halves are
present and the metadata deserializes; but when the metadata fails to
deserialize the exception propagates to the caller (it is not treated as
slot-absent). -/
theorem loadUploadedFile_spec (st : LocalStorage)
    (parseMeta : String → Option UploadedFileMeta) :
    (strTruthy (getItem st "uploadedFile") = false ∨
        strTruthy (getItem st "fileContent") = false →
      loadUploadedFile st parseMeta = .ok .absent)
    ∧ (∀ fi c m, getItem st "uploadedFile" = some fi → getItem st "fileContent" = some c →
        parseMeta fi = some m → fi ≠ "" → c ≠ "" →
        loadUploadedFile st parseMeta = .ok (.loaded m c))
    ∧ (∀ fi c, getItem st "uploadedFile" = some fi → getItem st "fileContent" = some c →
        parseMeta fi = none → fi ≠ "" → c ≠ "" →
        loadUploadedFile st parseMeta = .error ()) := by
  refine ⟨?_, ?_, ?_⟩
  · intro h
    unfold loadUploadedFile
    rcases h with h | h <;> simp [h]
  · intro fi c m hfi hc hp hfi0 hc0
    unfold loadUploadedFile
    rw [hfi, hc]
    simp [strTruthy, hp, hfi0, hc0]
  · intro fi c hfi hc hp hfi0 hc0
    unfold loadUploadedFile
    rw [hfi, hc]
    simp [strTruthy, hp, hfi0, hc0]

/-- The store for the C4 witness: well-formed metadata and content. -/
def okMetaStore : LocalStorage :=
  setItem (setItem (fun _ => none) "uploadedFile" "meta") "fileContent" "ACGT"

/-- A deserializer that succeeds on the stored metadata text. -/
def okParseMeta : String → Option UploadedFileMeta :=
  fun s => if s = "meta" then some ⟨"user_sequence.fasta", 9, "text/plain"⟩ else none

/-- C4 witness: both halves present and well-formed — the pair is returned. -/
theorem loadUploadedFile_spec_witness :
    loadUploadedFile okMetaStore okParseMeta
      = Except.ok (LoadOutcome.loaded ⟨"user_sequence.fasta", 9, "text/plain"⟩ "ACGT") :=
  (loadUploadedFile_spec okMetaStore okParseMeta).2.1 "meta" "ACGT"
    ⟨"user_sequence.fasta", 9, "text/plain"⟩ rfl rfl rfl (by decide) (by decide)

/-- C7: when the selected model set is empty or the backend has not been
reported reachable (`backendStatus ≠ 'connected'`, and `'connected'` is set
only by a healthy health-check response — see `checkBackendStatusUpdate`),
`runPrediction` issues no predict request, leaves the component state
unchanged, and fires one of the early-return error notifications. -/
theorem runPrediction_guarded (st : ModelsState)
    (hguard : st.selectedModels.card = 0 ∨ st.backendStatus ≠ "connected") :
    (runPredictionStep st).1 ≠ RunOutcome.predictRequestIssued
    ∧ (runPredictionStep st).2 = st
    ∧ ((runPredictionStep st).1 = RunOutcome.noFileError
      ∨ (runPredictionStep st).1 = RunOutcome.noModelsError
      ∨ (runPredictionStep st).1 = RunOutcome.backendNotConnectedError) := by
  unfold runPredictionStep
  by_cases h1 : st.uploadedFile.isSome = false || strTruthy st.fileContent = false
  · rw [if_pos h1]
    exact ⟨by simp, rfl, Or.inl rfl⟩
  · rw [if_neg h1]
    by_cases h2 : st.selectedModels.card = 0
    · rw [if_pos h2]
      exact ⟨by simp, rfl, Or.inr (Or.inl rfl)⟩
    · rw [if_neg h2]
      have h3 : st.backendStatus ≠ "connected" := hguard.resolve_left h2
      rw [if_pos h3]
      exact ⟨by simp, rfl, Or.inr (Or.inr rfl)⟩

/-- The state for the C7 witness: file staged and backend connected, but the
model set is empty. -/
def noModelsState : ModelsState :=
  ⟨some ⟨"user_sequence.fasta", 4, "text/plain"⟩, some "ACGT", ∅, "connected", false⟩

/-- C7 witness: with an empty model set the request is not issued and the
state is unchanged. -/
theorem runPrediction_guarded_witness :
    (runPredictionStep noModelsState).1 ≠ RunOutcome.predictRequestIssued
    ∧ (runPredictionStep noModelsState).2 = noModelsState :=
  ⟨(runPrediction_guarded noModelsState (Or.inl (by simp [noModelsState]))).1,
   (runPrediction_guarded noModelsState (Or.inl (by simp [noModelsState]))).2.1⟩

/-- C8: the upload slot (`'uploadedFile'`/`'fileContent'`) and the results
slot (`'predictionResults'`) are independent — saving a new upload leaves the
results key unchanged, and saving prediction results leaves both upload keys
unchanged; neither write clears the other slot. -/
theorem storageSlots_independent :
    (∀ st : LocalStorage, ∀ metaJson content : String,
      proceedToModelsSave st metaJson content "predictionResults" = st "predictionResults")
    ∧ (∀ st : LocalStorage, ∀ resultsJson : String,
      savePredictionResults st resultsJson "uploadedFile" = st "uploadedFile"
      ∧ savePredictionResults st resultsJson "fileContent" = st "fileContent") := by
  constructor
  · intro st m c
    simp [proceedToModelsSave, setItem]
  · intro st r
    constructor <;> simp [savePredictionResults, setItem]

/-- C9: for any normalized sequence (a fixed point of `cleanDNASequence`)
and any id, `createFastaFromSequence` produces `">" + id + "\n" + sequence`
— one header line, one sequence line; and the concrete scenario:
`"atcg\natcg"` normalizes to `"ATCGATCG"` and renders with the default id
`'User_Sequence'` as `">User_Sequence\nATCGATCG"`. -/
theorem createFastaFromSequence_spec :
    (∀ s i, cleanDNASequence s = s →
      createFastaFromSequence s i = ">" ++ i ++ "\n" ++ s)
    ∧ cleanDNASequence "atcg\natcg" = "ATCGATCG"
    ∧ createFastaFromSequence (cleanDNASequence "atcg\natcg") = ">User_Sequence\nATCGATCG" := by
  refine ⟨?_, by decide, by decide⟩
  intro s i h
  show ">" ++ i ++ "\n" ++ cleanDNASequence s = ">" ++ i ++ "\n" ++ s
  rw [h]

/-- C9 witness: the format equation at a concrete normalized input. -/
theorem createFastaFromSequence_spec_witness :
    createFastaFromSequence "ACGT" "Z" = ">" ++ "Z" ++ "\n" ++ "ACGT" :=
  createFastaFromSequence_spec.1 "ACGT" "Z" (by decide)
